import Mathlib

/-!
Verification development for the DRTIO master-side real-time packet layer
(`artiq/gateware/drtio/rt_packet_master.py`).

The Migen hardware description is shallowly embedded as explicit synchronous
state machines: each clocked process becomes a pure step function on a state
record, one invocation per clock cycle; combinational signals become `let`
bindings computed from the pre-edge state and the cycle's inputs.  Migen's
last-assignment-wins semantics for multiple statements in one `sync` block is
reflected by the nesting order of the `if` expressions.

Machine-integer signals are modelled as `Nat` with explicit `% 2 ^ w`
truncation where the hardware width matters (the 32-bit packet counters, the
bus-width extra-data words); fields that are only latched and forwarded are
carried as unbounded `Nat`, which is faithful because the hardware never
performs arithmetic on them.

The serializer module (`rt_serializer.py`: packet layouts, `error_codes`,
`TransmitDatapath`/`ReceiveDatapath`) is not part of the sources; its
interface signals (`packet_last`, `frame_r`, `packet_type`, field widths)
are treated as cycle inputs, and the layout constants are modelled from the
spec where a claim needs them (bus width 64, `short_data` width 256,
two local error codes).
-/

namespace RtPacketMaster

/-- Bus width `ws = len(link_layer.tx_rt_data)`.  Modelled from the spec:
the serializer layouts are not in the sources; the spec fixes the example
bus width to 64 bits (spec section 8). -/
def ws : Nat := 64

/-- Modelled from the spec: `tx_plm.field_length("write", "short_data")`;
the spec fixes the short-data field width to 256 bits (spec section 8). -/
def shortDataLen : Nat := 256

/-- Depth of the write/request `AsyncFIFO` (`sr_fifo_depth`, default 4). -/
def srFifoDepth : Nat := 4

/-- Word `i` (bus-width chunk) of the extra-data payload:
`sr_extra_data_d[ws*i:ws*(i+1)]` (`x >>> n` is `x / 2 ^ n`). -/
def extraWord (extra i : Nat) : Nat := (extra >>> (ws * i)) % 2 ^ ws

/-- The latched extra-data word count.  Embeds the Migen generate loop

    for i in range(512//ws):
        self.sync.rtio += If(sr_fifo.re,
            If(sr_extra_data_d[ws*i:ws*(i+1)] != 0, sr_extra_data_cnt.eq(i+1)))

Statements are appended for increasing `i` and the last executed assignment
wins, so the result is `i+1` for the highest non-zero word; when no word is
non-zero, no assignment executes and the register keeps its previous value
`prev`. -/
def computeExtraCnt (extra prev : Nat) : Nat :=
  (List.range (512 / ws)).foldl
    (fun acc i => if extraWord extra i ≠ 0 then i + 1 else acc) prev

/-- One entry of the write/request queue: the fields concatenated into
`sr_fifo.din` by `Cat(sr_notwrite, sr_timestamp, sr_channel, sr_address,
sr_data)`. -/
structure SrEntry where
  notwrite : Bool
  timestamp : Nat
  channel : Nat
  address : Nat
  data : Nat
  deriving DecidableEq

def srEntryDefault : SrEntry := ⟨false, 0, 0, 0, 0⟩

/-- States of the transmit FSM (`tx_fsm`). -/
inductive TxState
  | IDLE | WRITE | WRITE_EXTRA | FIFO_SPACE | ECHO | SET_TIME | RESET
  deriving DecidableEq

/-- Packets (and raw extra-data words) appearing on the transmit link,
one constructor per `tx_dp.send` call plus the raw extra-data stream. -/
inductive TxPacket
  | write (timestamp channel address extraDataCnt shortData : Nat)
  | writeExtraWord (w : Nat)
  | fifoSpaceRequest (channel : Nat)
  | echoRequest
  | setTime (timestamp : Nat)
  | reset (phy : Bool)
  deriving DecidableEq

/-- Per-cycle inputs of the rtio-domain transmit subsystem.  `push` is the
sys-domain side of the `AsyncFIFO` (one optional enqueue per cycle);
`packetLast` is `tx_dp.packet_last` from the serializer; the three pulse
inputs are the `request.o` outputs of the control `_CrossDomainRequest`
instances; `tscIn` is the externally driven `self.tsc_value`. -/
structure TxInput where
  push : Option SrEntry
  packetLast : Bool
  echoPulse : Bool
  setTimePulse : Bool
  resetPulse : Bool
  resetPhyData : Bool
  tscIn : Nat
  deriving DecidableEq

/-- State of the rtio-domain transmit subsystem: the write FIFO, the
one-entry read buffer and its latched registers, the extra-data machinery,
the control-request service registers, and ghost trace fields recording
accepted pushes, fully serviced entries, emitted packets (the queue-entry
packets additionally tagged with the index of the entry they belong to),
and acknowledge pulse counts. -/
structure TxMachine where
  fsm : TxState
  fifo : List SrEntry
  bufReadable : Bool
  srNotwrite : Bool
  srTimestamp : Nat
  srChannel : Nat
  srAddress : Nat
  srData : Nat
  srExtraData : Nat
  srExtraDataCnt : Nat
  extraDataCounter : Nat
  tscValue : Nat
  echoStb : Bool
  setTimeStb : Bool
  resetStb : Bool
  resetPhy : Bool
  pushed : List SrEntry
  serviced : List SrEntry
  packets : List TxPacket
  qtrace : List (Nat × TxPacket)
  echoAcks : Nat
  setTimeAcks : Nat
  resetAcks : Nat
  deriving DecidableEq

/-- The entry currently held by the read buffer, reconstructed from the
latched `sr_*` registers. -/
def txBufEntry (s : TxMachine) : SrEntry :=
  ⟨s.srNotwrite, s.srTimestamp, s.srChannel, s.srAddress, s.srData⟩

/-- `sr_buf_re`: combinational queue-advance request from the transmit FSM. -/
def txBufRe (s : TxMachine) (i : TxInput) : Bool :=
  match s.fsm with
  | .WRITE => i.packetLast && decide (s.srExtraDataCnt = 0)
  | .WRITE_EXTRA => decide (s.extraDataCounter = s.srExtraDataCnt)
  | .FIFO_SPACE => i.packetLast
  | _ => false

/-- `sr_fifo.re = sr_fifo.readable & (~sr_buf_readable | sr_buf_re)`. -/
def txRe (s : TxMachine) (i : TxInput) : Bool :=
  !s.fifo.isEmpty && (!s.bufReadable || txBufRe s i)

/-- Next transmit FSM state (the `NextState` calls of each `tx_fsm.act`). -/
def txFsmNext (s : TxMachine) (i : TxInput) : TxState :=
  match s.fsm with
  | .IDLE =>
      if s.bufReadable then
        if s.srNotwrite then .FIFO_SPACE else .WRITE
      else if s.echoStb then .ECHO
      else if s.setTimeStb then .SET_TIME
      else if s.resetStb then .RESET
      else .IDLE
  | .WRITE =>
      if i.packetLast then
        if s.srExtraDataCnt = 0 then .IDLE else .WRITE_EXTRA
      else .WRITE
  | .WRITE_EXTRA =>
      if s.extraDataCounter = s.srExtraDataCnt then .IDLE else .WRITE_EXTRA
  | .FIFO_SPACE => if i.packetLast then .IDLE else .FIFO_SPACE
  | .ECHO => if i.packetLast then .IDLE else .ECHO
  | .SET_TIME => if i.packetLast then .IDLE else .SET_TIME
  | .RESET => if i.packetLast then .IDLE else .RESET

/-- Packets completed (or raw words streamed) on the link this cycle.
A `tx_dp.send` packet is recorded at its `packet_last` cycle; `WRITE_EXTRA`
streams one raw bus-width word every cycle
(`Case(extra_data_counter, {i+1: sr_extra_data[i*ws:(i+1)*ws]})`). -/
def txEmit (s : TxMachine) (i : TxInput) : List TxPacket :=
  match s.fsm with
  | .IDLE => []
  | .WRITE =>
      if i.packetLast then
        [.write s.srTimestamp s.srChannel s.srAddress s.srExtraDataCnt
          (s.srData % 2 ^ shortDataLen)]
      else []
  | .WRITE_EXTRA => [.writeExtraWord (extraWord s.srExtraData (s.extraDataCounter - 1))]
  | .FIFO_SPACE => if i.packetLast then [.fifoSpaceRequest s.srChannel] else []
  | .ECHO => if i.packetLast then [.echoRequest] else []
  | .SET_TIME => if i.packetLast then [.setTime s.tscValue] else []
  | .RESET => if i.packetLast then [.reset s.resetPhy] else []

/-- The queue-entry packets among this cycle's emissions (those produced in
the `WRITE`/`WRITE_EXTRA`/`FIFO_SPACE` states). -/
def txQueueEmit (s : TxMachine) (i : TxInput) : List TxPacket :=
  match s.fsm with
  | .WRITE => txEmit s i
  | .WRITE_EXTRA => txEmit s i
  | .FIFO_SPACE => txEmit s i
  | _ => []

/-- `tsc_value_load`: asserted combinationally in `IDLE` when a set-time
request is selected. -/
def txTscLoad (s : TxMachine) : Bool :=
  decide (s.fsm = .IDLE) && !s.bufReadable && !s.echoStb && s.setTimeStb

/-- `echo_ack` pulse: `ECHO` state at `packet_last`. -/
def txEchoAck (s : TxMachine) (i : TxInput) : Bool :=
  decide (s.fsm = .ECHO) && i.packetLast

/-- `set_time_ack` pulse: `SET_TIME` state at `packet_last`. -/
def txSetTimeAck (s : TxMachine) (i : TxInput) : Bool :=
  decide (s.fsm = .SET_TIME) && i.packetLast

/-- `reset_ack` pulse: `RESET` state at `packet_last`. -/
def txResetAck (s : TxMachine) (i : TxInput) : Bool :=
  decide (s.fsm = .RESET) && i.packetLast

/-- One rtio clock cycle of the transmit subsystem. -/
def txStep (s : TxMachine) (i : TxInput) : TxMachine :=
  let bufRe := txBufRe s i
  let re := txRe s i
  let accept : List SrEntry :=
    match i.push with
    | none => []
    | some e => if s.fifo.length < srFifoDepth then [e] else []
  let e := s.fifo.headD srEntryDefault
  let extraD := e.data / 2 ^ shortDataLen
  { fsm := txFsmNext s i
    fifo := (if re then s.fifo.drop 1 else s.fifo) ++ accept
    bufReadable := if re then true else if bufRe then false else s.bufReadable
    srNotwrite := if re then e.notwrite else s.srNotwrite
    srTimestamp := if re then e.timestamp else s.srTimestamp
    srChannel := if re then e.channel else s.srChannel
    srAddress := if re then e.address else s.srAddress
    srData := if re then e.data else s.srData
    srExtraData := if re then extraD else s.srExtraData
    srExtraDataCnt := if re then computeExtraCnt extraD s.srExtraDataCnt else s.srExtraDataCnt
    extraDataCounter := if s.fsm = .WRITE_EXTRA then s.extraDataCounter + 1 else 1
    tscValue := if txTscLoad s then i.tscIn else s.tscValue
    echoStb := if txEchoAck s i then false else if i.echoPulse then true else s.echoStb
    setTimeStb := if txSetTimeAck s i then false else if i.setTimePulse then true else s.setTimeStb
    resetStb := if txResetAck s i then false else if i.resetPulse then true else s.resetStb
    resetPhy := if i.resetPulse then i.resetPhyData else s.resetPhy
    pushed := s.pushed ++ accept
    serviced := s.serviced ++ (if bufRe then [txBufEntry s] else [])
    packets := s.packets ++ txEmit s i
    qtrace := s.qtrace ++ (txQueueEmit s i).map (fun p => (s.serviced.length, p))
    echoAcks := s.echoAcks + (if txEchoAck s i then 1 else 0)
    setTimeAcks := s.setTimeAcks + (if txSetTimeAck s i then 1 else 0)
    resetAcks := s.resetAcks + (if txResetAck s i then 1 else 0) }

/-- Run the transmit subsystem over a list of cycle inputs. -/
def txRun (s : TxMachine) (l : List TxInput) : TxMachine := l.foldl txStep s

/-- Reset state of the transmit subsystem (all registers zero, FSM in
`IDLE`, FIFO empty). -/
def txInit : TxMachine :=
  { fsm := .IDLE
    fifo := []
    bufReadable := false
    srNotwrite := false
    srTimestamp := 0
    srChannel := 0
    srAddress := 0
    srData := 0
    srExtraData := 0
    srExtraDataCnt := 0
    extraDataCounter := 0
    tscValue := 0
    echoStb := false
    setTimeStb := false
    resetStb := false
    resetPhy := false
    pushed := []
    serviced := []
    packets := []
    qtrace := []
    echoAcks := 0
    setTimeAcks := 0
    resetAcks := 0 }

/-!
Single-request handshake `_CrossDomainRequest`.

The two clock regions are stepped jointly; the metastability of the
`PulseSynchronizer`'s `MultiReg` is modelled by a per-cycle scheduling input
`samp` deciding whether the destination-side synchronizer flop captures the
current source toggle this cycle or still holds its stale value.  The
`PulseSynchronizer` itself is embedded faithfully from Migen: the source
side toggles `toggle_i` on each input pulse, the destination compares the
synchronized toggle against its one-cycle-delayed copy.
-/

/-- State of one `_CrossDomainRequest` instance together with both
`PulseSynchronizer`s and ghost pulse counters (`nReq` counts `request.i`
pulses issued by the origin, `nSrv` counts `request.o` pulses reaching the
destination, `nAck` counts cycles with `req_ack` asserted at the origin). -/
structure CdrState where
  ongoing : Bool
  reqAck : Bool
  t1 : Bool
  s1 : Bool
  s1r : Bool
  srvStb : Bool
  t2 : Bool
  s2 : Bool
  s2r : Bool
  nReq : Nat
  nSrv : Nat
  nAck : Nat
  deriving DecidableEq

/-- Per-cycle inputs of a `_CrossDomainRequest` instance: the origin's
`req_stb`, the destination's `srv_ack`, and the two synchronizer sampling
schedules. -/
structure CdrInput where
  reqStb : Bool
  srvAck : Bool
  samp1 : Bool
  samp2 : Bool
  deriving DecidableEq

/-- `request.i = ~ongoing & req_stb`. -/
def cdrReqI (s : CdrState) (reqStb : Bool) : Bool := reqStb && !s.ongoing

/-- `request.o`: output pulse of the sys-to-domain `PulseSynchronizer`. -/
def cdrO1 (s : CdrState) : Bool := s.s1 != s.s1r

/-- `reply.o`: output pulse of the domain-to-sys `PulseSynchronizer`. -/
def cdrO2 (s : CdrState) : Bool := s.s2 != s.s2r

/-- One joint clock cycle of a `_CrossDomainRequest` instance. -/
def cdrStep (s : CdrState) (i : CdrInput) : CdrState :=
  let reqI := cdrReqI s i.reqStb
  let o1 := cdrO1 s
  let o2 := cdrO2 s
  let replyI := s.srvStb && i.srvAck
  { ongoing := if s.reqAck then false else if i.reqStb then true else s.ongoing
    reqAck := o2
    t1 := if reqI then !s.t1 else s.t1
    s1 := if i.samp1 then s.t1 else s.s1
    s1r := s.s1
    srvStb := if i.srvAck then false else if o1 then true else s.srvStb
    t2 := if replyI then !s.t2 else s.t2
    s2 := if i.samp2 then s.t2 else s.s2
    s2r := s.s2
    nReq := s.nReq + (if reqI then 1 else 0)
    nSrv := s.nSrv + (if o1 then 1 else 0)
    nAck := s.nAck + (if s.reqAck then 1 else 0) }

/-- Reset state of a `_CrossDomainRequest` instance. -/
def cdrInit : CdrState :=
  ⟨false, false, false, false, false, false, false, false, false, 0, 0, 0⟩

def cdrRun (s : CdrState) (l : List CdrInput) : CdrState := l.foldl cdrStep s

/-- Destination contract: the service side raises `srv_ack` only while
`srv_stb` is pending (in `RTPacketMaster` the acks are raised by FSM states
that are entered only in response to `srv_stb`).  Checked pointwise along
the run. -/
def cdrValid (s : CdrState) : List CdrInput → Bool
  | [] => true
  | i :: l => (!i.srvAck || s.srvStb) && cdrValid (cdrStep s i) l

/-- Phase: no request in flight, all synchronizer stages settled. -/
def cdrIdle (s : CdrState) : Prop :=
  s.ongoing = false ∧ s.reqAck = false ∧ s.srvStb = false ∧
    s.t1 = s.s1 ∧ s.s1 = s.s1r ∧ s.t2 = s.s2 ∧ s.s2 = s.s2r ∧
    s.nReq = s.nSrv ∧ s.nSrv = s.nAck

instance (s : CdrState) : Decidable (cdrIdle s) := by
  unfold cdrIdle; infer_instance

/-- Phase: request toggled at the origin, not yet sampled. -/
def cdrReqToggled (s : CdrState) : Prop :=
  s.ongoing = true ∧ s.reqAck = false ∧ s.srvStb = false ∧
    s.t1 ≠ s.s1 ∧ s.s1 = s.s1r ∧ s.t2 = s.s2 ∧ s.s2 = s.s2r ∧
    s.nReq = s.nSrv + 1 ∧ s.nSrv = s.nAck

instance (s : CdrState) : Decidable (cdrReqToggled s) := by
  unfold cdrReqToggled; infer_instance

/-- Phase: request toggle sampled, destination pulse fires this cycle. -/
def cdrReqSampled (s : CdrState) : Prop :=
  s.ongoing = true ∧ s.reqAck = false ∧ s.srvStb = false ∧
    s.t1 = s.s1 ∧ s.s1 ≠ s.s1r ∧ s.t2 = s.s2 ∧ s.s2 = s.s2r ∧
    s.nReq = s.nSrv + 1 ∧ s.nSrv = s.nAck

instance (s : CdrState) : Decidable (cdrReqSampled s) := by
  unfold cdrReqSampled; infer_instance

/-- Phase: request pending at the destination (`srv_stb` held). -/
def cdrServing (s : CdrState) : Prop :=
  s.ongoing = true ∧ s.reqAck = false ∧ s.srvStb = true ∧
    s.t1 = s.s1 ∧ s.s1 = s.s1r ∧ s.t2 = s.s2 ∧ s.s2 = s.s2r ∧
    s.nReq = s.nSrv ∧ s.nSrv = s.nAck + 1

instance (s : CdrState) : Decidable (cdrServing s) := by
  unfold cdrServing; infer_instance

/-- Phase: reply toggled at the destination, not yet sampled. -/
def cdrRepToggled (s : CdrState) : Prop :=
  s.ongoing = true ∧ s.reqAck = false ∧ s.srvStb = false ∧
    s.t1 = s.s1 ∧ s.s1 = s.s1r ∧ s.t2 ≠ s.s2 ∧ s.s2 = s.s2r ∧
    s.nReq = s.nSrv ∧ s.nSrv = s.nAck + 1

instance (s : CdrState) : Decidable (cdrRepToggled s) := by
  unfold cdrRepToggled; infer_instance

/-- Phase: reply toggle sampled, origin pulse fires this cycle. -/
def cdrRepSampled (s : CdrState) : Prop :=
  s.ongoing = true ∧ s.reqAck = false ∧ s.srvStb = false ∧
    s.t1 = s.s1 ∧ s.s1 = s.s1r ∧ s.t2 = s.s2 ∧ s.s2 ≠ s.s2r ∧
    s.nReq = s.nSrv ∧ s.nSrv = s.nAck + 1

instance (s : CdrState) : Decidable (cdrRepSampled s) := by
  unfold cdrRepSampled; infer_instance

/-- Phase: `req_ack` asserted at the origin for this one cycle. -/
def cdrAcking (s : CdrState) : Prop :=
  s.ongoing = true ∧ s.reqAck = true ∧ s.srvStb = false ∧
    s.t1 = s.s1 ∧ s.s1 = s.s1r ∧ s.t2 = s.s2 ∧ s.s2 = s.s2r ∧
    s.nReq = s.nSrv ∧ s.nSrv = s.nAck + 1

instance (s : CdrState) : Decidable (cdrAcking s) := by
  unfold cdrAcking; infer_instance

/-- Handshake phase invariant: at every reachable point there is at most one
request in flight, located in exactly one of the stages of the round trip,
and the ghost pulse counters are locked together accordingly. -/
def cdrInv (s : CdrState) : Prop :=
  cdrIdle s ∨ cdrReqToggled s ∨ cdrReqSampled s ∨ cdrServing s ∨
    cdrRepToggled s ∨ cdrRepSampled s ∨ cdrAcking s

instance (s : CdrState) : Decidable (cdrInv s) := by
  unfold cdrInv; infer_instance

/-!
Single-notification handshake `_CrossDomainNotification`, with the same
joint-clock, scheduled-sampling embedding of the `PulseSynchronizer`.
-/

/-- State of one `_CrossDomainNotification` instance.  `lastRelayed` is a
ghost register recording the value carried by the most recent relayed pulse
(the value of `emi_data_r` at the cycle `ps.o` fired). -/
structure CdnState where
  emiDataR : Nat
  tog : Bool
  togO : Bool
  togOr : Bool
  recStb : Bool
  recData : Nat
  lastRelayed : Nat
  deriving DecidableEq

/-- Per-cycle inputs of a `_CrossDomainNotification` instance. -/
structure CdnInput where
  emiStb : Bool
  emiData : Nat
  recAck : Bool
  samp : Bool
  deriving DecidableEq

/-- `ps.o`: the relayed notification pulse. -/
def cdnO (s : CdnState) : Bool := s.togO != s.togOr

/-- One joint clock cycle of a `_CrossDomainNotification` instance.  The
sys-domain block is

    If(rec_ack, rec_stb.eq(0)),
    If(ps.o, rec_data.eq(emi_data_r), rec_stb.eq(1))

so a pulse arriving in the same cycle as an acknowledgement wins (the later
assignment overrides). -/
def cdnStep (s : CdnState) (i : CdnInput) : CdnState :=
  let o := cdnO s
  { emiDataR := if i.emiStb then i.emiData else s.emiDataR
    tog := if i.emiStb then !s.tog else s.tog
    togO := if i.samp then s.tog else s.togO
    togOr := s.togO
    recStb := if o then true else if i.recAck then false else s.recStb
    recData := if o then s.emiDataR else s.recData
    lastRelayed := if o then s.emiDataR else s.lastRelayed }

/-- Reset state of a `_CrossDomainNotification` instance. -/
def cdnInit : CdnState := ⟨0, false, false, false, false, 0, 0⟩

def cdnRun (s : CdnState) (l : List CdnInput) : CdnState := l.foldl cdnStep s

/-!
Receive FSM (`rx_fsm`).  The `ReceiveDatapath` is not part of the sources;
its outputs (`frame_r`, `packet_last`, `packet_type` and the decoded fields
of the packet buffer) are cycle inputs of the FSM.
-/

/-- Error codes surfaced on the `error_not`/`error_code` channel.  Modelled
from the spec: `rt_serializer.error_codes` is not in the sources; the spec
(section 6) defines the two local codes `unknown_type_local` and
`truncated_local` in addition to remote codes passed through verbatim. -/
inductive ErrCode
  | unknownTypeLocal
  | truncatedLocal
  | remote (code : Nat)
  deriving DecidableEq

/-- Packet type tag dispatched on the last frame cycle.  The three known
receive types are `rx_plm.types["error" | "echo_reply" |
"fifo_space_reply"]`; every other tag value falls into the `Case` default
branch and is represented by `unknown`. -/
inductive RxPacketType
  | error
  | echoReply
  | fifoSpaceReply
  | unknown (tag : Nat)
  deriving DecidableEq

/-- States of the receive FSM. -/
inductive RxState
  | INPUT | ERROR | FIFO_SPACE
  deriving DecidableEq

/-- Per-cycle inputs of the receive FSM, as produced by the
`ReceiveDatapath`: `frame` is `rx_dp.frame_r`, `packetLast` is
`rx_dp.packet_last`, `ptype` is `rx_dp.packet_type`, `errCode` and `space`
are the decoded `packet_as` fields of the packet buffer. -/
structure RxInput where
  frame : Bool
  packetLast : Bool
  ptype : RxPacketType
  errCode : Nat
  space : Nat
  deriving DecidableEq

/-- State of the receive subsystem, with ghost traces of the raised error
notifications (`error_not` pulses with their codes), the echo-received
pulses, and the fifo-space notifications. -/
structure RxMachine where
  fsm : RxState
  ongoingPacket : Bool
  errors : List ErrCode
  echoPulses : Nat
  fifoSpaces : List Nat
  deriving DecidableEq

/-- One rtio_rx clock cycle of the receive FSM. -/
def rxStep (s : RxMachine) (i : RxInput) : RxMachine :=
  match s.fsm with
  | .INPUT =>
      let dispatch := i.frame && i.packetLast
      let truncated := !i.frame && s.ongoingPacket
      { fsm :=
          if dispatch then
            match i.ptype with
            | .error => .ERROR
            | .fifoSpaceReply => .FIFO_SPACE
            | _ => .INPUT
          else .INPUT
        ongoingPacket := i.frame && !i.packetLast
        errors := s.errors ++
          (if dispatch then
            match i.ptype with
            | .unknown _ => [ErrCode.unknownTypeLocal]
            | _ => []
          else []) ++
          (if truncated then [ErrCode.truncatedLocal] else [])
        echoPulses := s.echoPulses +
          (if dispatch then
            match i.ptype with
            | .echoReply => 1
            | _ => 0
          else 0)
        fifoSpaces := s.fifoSpaces }
  | .ERROR =>
      { fsm := .INPUT
        ongoingPacket := false
        errors := s.errors ++ [ErrCode.remote i.errCode]
        echoPulses := s.echoPulses
        fifoSpaces := s.fifoSpaces }
  | .FIFO_SPACE =>
      { fsm := .INPUT
        ongoingPacket := false
        errors := s.errors
        echoPulses := s.echoPulses
        fifoSpaces := s.fifoSpaces ++ [i.space] }

/-- Reset state of the receive subsystem. -/
def rxInit : RxMachine := ⟨.INPUT, false, [], 0, []⟩

def rxRun (s : RxMachine) (l : List RxInput) : RxMachine := l.foldl rxStep s

/-!
Packet counters.  Both counters (`packet_cnt_tx` in rtio, `packet_cnt_rx`
in rtio_rx) are the same circuit: register the frame-active signal and
increment a 32-bit counter on each 0-to-1 transition.
-/

/-- State of one packet counter: the registered frame signal and the 32-bit
count. -/
structure PktCnt where
  frameR : Bool
  cnt : Nat
  deriving DecidableEq

/-- One clock cycle of a packet counter, `frame` being the region's
frame-active signal this cycle. -/
def pktCntStep (s : PktCnt) (frame : Bool) : PktCnt :=
  { frameR := frame
    cnt := if frame && !s.frameR then (s.cnt + 1) % 2 ^ 32 else s.cnt }

def pktCntInit : PktCnt := ⟨false, 0⟩

def pktCntRun (s : PktCnt) (l : List Bool) : PktCnt := l.foldl pktCntStep s

/-- The counter value exposed to the other region.  Modelled from the spec:
the `GrayCodeTransfer` cross-domain primitive is not in the sources; per
spec section 4.6 it relays the counter value unchanged (read-only telemetry,
staleness abstracted away in this joint-clock model). -/
def exposedPktCnt (s : PktCnt) : Nat := s.cnt

/-- Number of 0-to-1 transitions of a signal trace, `prev` being the level
on the preceding cycle. -/
def risingCount (prev : Bool) : List Bool → Nat
  | [] => 0
  | b :: l => (if b && !prev then 1 else 0) + risingCount b l

/-- Number of 1-to-0 transitions of a signal trace. -/
def fallingCount (prev : Bool) : List Bool → Nat
  | [] => 0
  | b :: l => (if !b && prev then 1 else 0) + fallingCount b l

/-- Level of the signal after the whole trace. -/
def lastLevel (prev : Bool) : List Bool → Bool
  | [] => prev
  | b :: l => lastLevel b l

/-- Number of completed frames in a frame-active trace starting from an
idle link: each completed frame ends with exactly one 1-to-0 transition. -/
def completedFrames (l : List Bool) : Nat := fallingCount false l

/-- A cycle with no producer activity: no push, no control pulses. -/
def txNoInput : TxInput := ⟨none, false, false, false, false, false, 0⟩

/-- A cycle input that only pushes an entry into the write/request queue. -/
def txPushInput (e : SrEntry) : TxInput := ⟨some e, false, false, false, false, false, 0⟩

theorem bool_bne_not_self (b : Bool) : (b != !b) = true := by cases b <;> rfl

theorem bool_not_bne_self (b : Bool) : ((!b) != b) = true := by cases b <;> rfl

/-- C3: in the transmit FSM's IDLE state a queued entry in the read buffer
is always serviced first — `WRITE` when its `notwrite` tag is clear,
`FIFO_SPACE` when set, for any combination of pending control requests —
and a control request is selected only when the buffer is empty, in the
fixed priority order echo, then set-time, then reset. -/
theorem c3_idle_priority (s : TxMachine) (i : TxInput) (h : s.fsm = .IDLE) :
    (s.bufReadable = true →
      txFsmNext s i = (if s.srNotwrite then TxState.FIFO_SPACE else TxState.WRITE)) ∧
    (s.bufReadable = false → s.echoStb = true → txFsmNext s i = .ECHO) ∧
    (s.bufReadable = false → s.echoStb = false → s.setTimeStb = true →
      txFsmNext s i = .SET_TIME) ∧
    (s.bufReadable = false → s.echoStb = false → s.setTimeStb = false →
      s.resetStb = true → txFsmNext s i = .RESET) ∧
    (s.bufReadable = false → s.echoStb = false → s.setTimeStb = false →
      s.resetStb = false → txFsmNext s i = .IDLE) := by
  refine ⟨?_, ?_, ?_, ?_, ?_⟩ <;> intros <;> simp [txFsmNext, h, *]

/-- A concrete IDLE state with a buffered entry and all three control
requests pending at once. -/
def c3State : TxMachine :=
  { txInit with
      bufReadable := true, echoStb := true, setTimeStb := true, resetStb := true }

theorem c3_idle_priority_witness :
    c3State.bufReadable = true ∧ txFsmNext c3State txNoInput = .WRITE := by
  refine ⟨rfl, ?_⟩
  have h := (c3_idle_priority c3State txNoInput rfl).1 rfl
  simpa using h

/-- C6: when the receive FSM completes a packet whose type tag is none of
`error`, `echo_reply` or `fifo_space_reply`, it raises exactly one local
error notification with code `unknown_type_local`, stays in `INPUT`, clears
the ongoing-packet flag, and raises no other notification. -/
theorem c6_unknown_type (s : RxMachine) (i : RxInput) (t : Nat)
    (hs : s.fsm = .INPUT) (hf : i.frame = true) (hl : i.packetLast = true)
    (ht : i.ptype = .unknown t) :
    (rxStep s i).errors = s.errors ++ [ErrCode.unknownTypeLocal] ∧
    (rxStep s i).fsm = .INPUT ∧
    (rxStep s i).ongoingPacket = false ∧
    (rxStep s i).echoPulses = s.echoPulses ∧
    (rxStep s i).fifoSpaces = s.fifoSpaces := by
  simp [rxStep, hs, hf, hl, ht]

theorem c6_unknown_type_witness :
    rxInit.fsm = .INPUT ∧
    (rxStep rxInit ⟨true, true, .unknown 9, 0, 0⟩).errors = [ErrCode.unknownTypeLocal] ∧
    (rxStep rxInit ⟨true, true, .unknown 9, 0, 0⟩).fsm = .INPUT := by
  have h := c6_unknown_type rxInit ⟨true, true, .unknown 9, 0, 0⟩ 9 rfl rfl rfl rfl
  exact ⟨rfl, by simpa [rxInit] using h.1, h.2.1⟩

theorem rx_idle_low_frame (s : RxMachine) (l : List RxInput)
    (hs : s.fsm = .INPUT) (ho : s.ongoingPacket = false)
    (hl : ∀ j ∈ l, j.frame = false) :
    (rxRun s l).errors = s.errors ∧ (rxRun s l).fsm = .INPUT ∧
      (rxRun s l).ongoingPacket = false := by
  induction l generalizing s with
  | nil => exact ⟨rfl, hs, ho⟩
  | cons j l ih =>
      have hj : j.frame = false := hl j (by simp)
      have hstep : (rxStep s j).errors = s.errors ∧ (rxStep s j).fsm = .INPUT ∧
          (rxStep s j).ongoingPacket = false := by
        simp [rxStep, hs, hj, ho]
      have htail := ih (rxStep s j) hstep.2.1 hstep.2.2 (fun x hx => hl x (by simp [hx]))
      exact ⟨htail.1.trans hstep.1, htail.2⟩

/-- C7: if the frame deactivates while a packet is only partially received,
the receive FSM raises exactly one `truncated_local` error notification,
clears the ongoing-packet flag, stays in `INPUT`, and emits no further
error while the frame stays low (no repeated truncation errors, no
deadlock). -/
theorem c7_truncated_frame (s : RxMachine) (i : RxInput) (l : List RxInput)
    (hs : s.fsm = .INPUT) (hf : i.frame = false) (ho : s.ongoingPacket = true)
    (hl : ∀ j ∈ l, j.frame = false) :
    (rxStep s i).errors = s.errors ++ [ErrCode.truncatedLocal] ∧
    (rxStep s i).fsm = .INPUT ∧
    (rxStep s i).ongoingPacket = false ∧
    (rxRun (rxStep s i) l).errors = s.errors ++ [ErrCode.truncatedLocal] ∧
    (rxRun (rxStep s i) l).fsm = .INPUT := by
  have hstep : (rxStep s i).errors = s.errors ++ [ErrCode.truncatedLocal] ∧
      (rxStep s i).fsm = .INPUT ∧ (rxStep s i).ongoingPacket = false := by
    simp [rxStep, hs, hf, ho]
  have hrun := rx_idle_low_frame (rxStep s i) l hstep.2.1 hstep.2.2 hl
  exact ⟨hstep.1, hstep.2.1, hstep.2.2, hrun.1.trans hstep.1, hrun.2.1⟩

theorem c7_truncated_frame_witness :
    ({ rxInit with ongoingPacket := true } : RxMachine).ongoingPacket = true ∧
    (rxRun (rxStep { rxInit with ongoingPacket := true }
        ⟨false, false, .unknown 0, 0, 0⟩)
        [⟨false, false, .unknown 0, 0, 0⟩, ⟨false, false, .unknown 0, 0, 0⟩]).errors
      = [ErrCode.truncatedLocal] := by
  have h := c7_truncated_frame { rxInit with ongoingPacket := true }
    ⟨false, false, .unknown 0, 0, 0⟩
    [⟨false, false, .unknown 0, 0, 0⟩, ⟨false, false, .unknown 0, 0, 0⟩]
    rfl rfl rfl (by intro j hj; fin_cases hj <;> rfl)
  exact ⟨rfl, by simpa [rxInit] using h.2.2.2.1⟩

/-- C10: in the single-notification handshake, when an acknowledgement and
a newly synchronized event pulse occur in the same cycle, the pulse wins:
the pending flag stays asserted and the data register takes the new
payload, so an acknowledgement never discards a concurrent notification. -/
theorem c10_ack_pulse_same_cycle (s : CdnState) (i : CdnInput)
    (ho : cdnO s = true) (_ha : i.recAck = true) :
    (cdnStep s i).recStb = true ∧ (cdnStep s i).recData = s.emiDataR := by
  simp [cdnStep, ho]

theorem c10_ack_pulse_same_cycle_witness :
    cdnO { cdnInit with togO := true, emiDataR := 5 } = true ∧
    (cdnStep { cdnInit with togO := true, emiDataR := 5 }
        ⟨false, 0, true, false⟩).recStb = true ∧
    (cdnStep { cdnInit with togO := true, emiDataR := 5 }
        ⟨false, 0, true, false⟩).recData = 5 := by
  have h := c10_ack_pulse_same_cycle { cdnInit with togO := true, emiDataR := 5 }
    ⟨false, 0, true, false⟩ (by decide) rfl
  exact ⟨by decide, h.1, h.2⟩

theorem cdn_no_stale_run (s : CdnState) (l : List CdnInput)
    (h : s.recStb = true → s.recData = s.lastRelayed) :
    (cdnRun s l).recStb = true → (cdnRun s l).recData = (cdnRun s l).lastRelayed := by
  induction l generalizing s with
  | nil => exact h
  | cons i l ih =>
      refine ih (cdnStep s i) ?_
      intro hstb
      by_cases ho : cdnO s = true
      · simp [cdnStep, ho]
      · have ho' : cdnO s = false := by simpa using ho
        simp only [cdnStep, ho', if_false, Bool.false_eq_true] at hstb ⊢
        cases hra : i.recAck with
        | true => rw [hra] at hstb; simp at hstb
        | false => rw [hra] at hstb; simp at hstb; exact h hstb

/-- C5: in the single-notification handshake the event payload register is
overwritten unconditionally on every emitted event (even while an earlier
event's pulse is still in flight), and whenever the consumer-visible
pending flag is set, `rec_data` equals the payload carried by the most
recently relayed pulse (which is the latest emitted payload at relay time)
— the consumer never observes data older than the last relay, even though
overlapping pulses may be coalesced by the toggle synchronizer. -/
theorem c5_notification_not_stale :
    (∀ l : List CdnInput, (cdnRun cdnInit l).recStb = true →
        (cdnRun cdnInit l).recData = (cdnRun cdnInit l).lastRelayed) ∧
    (∀ (s : CdnState) (i : CdnInput), i.emiStb = true →
        (cdnStep s i).emiDataR = i.emiData) := by
  constructor
  · intro l
    exact cdn_no_stale_run cdnInit l (by intro h; cases h)
  · intro s i h
    simp [cdnStep, h]

theorem c5_notification_not_stale_witness :
    (cdnRun cdnInit [⟨true, 7, false, false⟩, ⟨false, 0, false, true⟩,
        ⟨false, 0, false, false⟩]).recStb = true ∧
    (cdnRun cdnInit [⟨true, 7, false, false⟩, ⟨false, 0, false, true⟩,
        ⟨false, 0, false, false⟩]).recData
      = (cdnRun cdnInit [⟨true, 7, false, false⟩, ⟨false, 0, false, true⟩,
        ⟨false, 0, false, false⟩]).lastRelayed ∧
    (cdnStep cdnInit ⟨true, 7, false, false⟩).emiDataR = 7 := by
  refine ⟨by decide, ?_, ?_⟩
  · exact c5_notification_not_stale.1
      [⟨true, 7, false, false⟩, ⟨false, 0, false, true⟩, ⟨false, 0, false, false⟩]
      (by decide)
  · exact c5_notification_not_stale.2 cdnInit ⟨true, 7, false, false⟩ rfl

theorem pktCnt_run_cnt (s : PktCnt) (l : List Bool) (h : s.cnt < 2 ^ 32) :
    (pktCntRun s l).cnt = (s.cnt + risingCount s.frameR l) % 2 ^ 32 := by
  induction l generalizing s with
  | nil =>
      simp only [pktCntRun, List.foldl_nil, risingCount, Nat.add_zero]
      exact (Nat.mod_eq_of_lt h).symm
  | cons b l ih =>
      have hrun : pktCntRun s (b :: l) = pktCntRun (pktCntStep s b) l := rfl
      rw [hrun]
      by_cases he : (b && !s.frameR) = true
      · have hlt : ((s.cnt + 1) % 2 ^ 32) < 2 ^ 32 := Nat.mod_lt _ (by norm_num)
        have hstep : pktCntStep s b = ⟨b, (s.cnt + 1) % 2 ^ 32⟩ := by
          simp [pktCntStep, he]
        rw [hstep, ih ⟨b, (s.cnt + 1) % 2 ^ 32⟩ hlt]
        simp [risingCount, he, Nat.mod_add_mod]
        ring_nf
      · have he' : (b && !s.frameR) = false := by simpa using he
        have hstep : pktCntStep s b = ⟨b, s.cnt⟩ := by simp [pktCntStep, he']
        rw [hstep, ih ⟨b, s.cnt⟩ h]
        simp [risingCount, he']

theorem rising_falling_level (l : List Bool) (prev : Bool) :
    risingCount prev l + (if prev then 1 else 0)
      = fallingCount prev l + (if lastLevel prev l then 1 else 0) := by
  induction l generalizing prev with
  | nil => simp [risingCount, fallingCount, lastLevel]
  | cons b l ih =>
      have hb := ih b
      cases prev <;> cases b <;>
        simp [risingCount, fallingCount, lastLevel] at hb ⊢ <;> omega

/-- C9: each packet counter increments exactly once per 0-to-1 transition
of its region's frame-active signal, so after any transmit trace with M
completed frames and any receive trace with R completed frames (traces
ending with the frame deasserted), the exposed 32-bit counters equal
M mod 2^32 and R mod 2^32, independently of each other. -/
theorem c9_packet_counters (ltx lrx : List Bool)
    (htx : lastLevel false ltx = false) (hrx : lastLevel false lrx = false) :
    exposedPktCnt (pktCntRun pktCntInit ltx) = completedFrames ltx % 2 ^ 32 ∧
    exposedPktCnt (pktCntRun pktCntInit lrx) = completedFrames lrx % 2 ^ 32 := by
  have key : ∀ l : List Bool, lastLevel false l = false →
      exposedPktCnt (pktCntRun pktCntInit l) = completedFrames l % 2 ^ 32 := by
    intro l hl
    have h1 := pktCnt_run_cnt pktCntInit l (by decide)
    have h2 := rising_falling_level l false
    rw [hl] at h2
    simp at h2
    simpa [exposedPktCnt, pktCntInit, completedFrames, h2] using h1
  exact ⟨key ltx htx, key lrx hrx⟩

theorem c9_packet_counters_witness :
    lastLevel false [true, false, true, false] = false ∧
    lastLevel false [true, false] = false ∧
    exposedPktCnt (pktCntRun pktCntInit [true, false, true, false])
      = completedFrames [true, false, true, false] % 2 ^ 32 := by
  refine ⟨by decide, by decide, ?_⟩
  exact (c9_packet_counters [true, false, true, false] [true, false]
    (by decide) (by decide)).1

theorem foldl_lastAssign_allZero (p : Nat → Prop) [DecidablePred p] (a n : Nat)
    (h : ∀ j < n, ¬ p j) :
    (List.range n).foldl (fun acc i => if p i then i + 1 else acc) a = a := by
  induction n with
  | zero => rfl
  | succ m ih =>
      rw [List.range_succ, List.foldl_append, List.foldl_cons, List.foldl_nil,
        if_neg (h m (Nat.lt_succ_self m))]
      exact ih fun j hj => h j (hj.trans (Nat.lt_succ_self m))

theorem foldl_lastAssign_top (p : Nat → Prop) [DecidablePred p] (a n j : Nat)
    (hj : j < n) (hpj : p j) (hmax : ∀ k, j < k → k < n → ¬ p k) :
    (List.range n).foldl (fun acc i => if p i then i + 1 else acc) a = j + 1 := by
  induction n with
  | zero => omega
  | succ m ih =>
      rw [List.range_succ, List.foldl_append, List.foldl_cons, List.foldl_nil]
      by_cases hjm : j = m
      · subst hjm
        rw [if_pos hpj]
      · have hjm' : j < m := by omega
        rw [if_neg (hmax m hjm' (Nat.lt_succ_self m))]
        exact ih hjm' fun k hk1 hk2 => hmax k hk1 (hk2.trans (Nat.lt_succ_self m))

/-- Input schedule for the spec's example: push one write entry
(channel 3, timestamp 100, address 0, payload 0x01 in byte 0, rest zero)
from reset, then let the FSM transmit it. -/
def c1ExampleInputs : List TxInput :=
  [ txPushInput ⟨false, 100, 3, 0, 1⟩, txNoInput, txNoInput,
    { txNoInput with packetLast := true }, txNoInput ]

/-- Input schedule refuting C1's "regardless of earlier entries": first a
write whose lowest extra word is non-zero (bit 256 set), then the spec's
example write (payload 0x01 in byte 0, all extra words zero). -/
def c1CounterInputs : List TxInput :=
  [ txPushInput ⟨false, 0, 1, 0, 2 ^ 256⟩,
    txPushInput ⟨false, 200, 3, 0, 1⟩,
    txNoInput,
    { txNoInput with packetLast := true },
    txNoInput,
    txNoInput,
    { txNoInput with packetLast := true } ]

/-- C1 (amended): when an entry is dequeued from the write/request queue,
the latched `sr_extra_data_cnt` equals the 1-based index of the highest
non-zero bus-width word of the payload beyond the short-data field when
such a word exists; when all extra words are zero the register retains its
previous value instead of becoming 0 (so it is 0 only when no previously
dequeued entry left a non-zero count, e.g. directly after reset).  The
spec's example — the first entry pushed after reset, payload 0x01 in
byte 0 — does yield exactly one write packet with extra_data_cnt = 0 and
the FSM returns from WRITE to IDLE without ever entering WRITE_EXTRA. -/
theorem c1_extra_data_cnt_amended :
    (∀ (s : TxMachine) (i : TxInput) (e : SrEntry) (r : List SrEntry),
      s.fifo = e :: r → txRe s i = true →
      ((∀ j, j < 512 / ws → extraWord (e.data / 2 ^ shortDataLen) j = 0) →
          (txStep s i).srExtraDataCnt = s.srExtraDataCnt) ∧
      (∀ j, j < 512 / ws → extraWord (e.data / 2 ^ shortDataLen) j ≠ 0 →
          (∀ k, k < 512 / ws → j < k → extraWord (e.data / 2 ^ shortDataLen) k = 0) →
          (txStep s i).srExtraDataCnt = j + 1)) ∧
    (txRun txInit c1ExampleInputs).packets = [TxPacket.write 100 3 0 0 1] ∧
    (txRun txInit c1ExampleInputs).fsm = .IDLE ∧
    (∀ k, k ≤ c1ExampleInputs.length →
      (txRun txInit (c1ExampleInputs.take k)).fsm ≠ .WRITE_EXTRA) := by
  refine ⟨?_, by decide, by decide, by decide⟩
  intro s i e r hfifo hre
  have hcnt : (txStep s i).srExtraDataCnt
      = computeExtraCnt (e.data / 2 ^ shortDataLen) s.srExtraDataCnt := by
    simp [txStep, hre, hfifo]
  constructor
  · intro hz
    rw [hcnt]
    exact foldl_lastAssign_allZero _ _ _ fun j hj => by simp [hz j hj]
  · intro j hj hnz hmax
    rw [hcnt]
    exact foldl_lastAssign_top _ _ _ j hj hnz fun k hk1 hk2 => by simp [hmax k hk2 hk1]

theorem c1_extra_data_cnt_amended_witness :
    ({ txInit with fifo := [⟨false, 0, 0, 0, 2 ^ 256⟩] } : TxMachine).fifo
        = ⟨false, 0, 0, 0, 2 ^ 256⟩ :: [] ∧
    txRe { txInit with fifo := [⟨false, 0, 0, 0, 2 ^ 256⟩] } txNoInput = true ∧
    (txStep { txInit with fifo := [⟨false, 0, 0, 0, 2 ^ 256⟩] }
        txNoInput).srExtraDataCnt = 1 := by
  refine ⟨rfl, by decide, ?_⟩
  have h := ((c1_extra_data_cnt_amended).1
    { txInit with fifo := [⟨false, 0, 0, 0, 2 ^ 256⟩] } txNoInput
    ⟨false, 0, 0, 0, 2 ^ 256⟩ [] rfl (by decide)).2 0 (by decide) (by decide)
    (by decide)
  simpa using h

/-- C1 counterexample: after an earlier write left a non-zero extra-word
count, the spec's example write (payload 0x01 in byte 0, all extra words
zero) is dequeued with a stale latched count of 1; its write packet carries
extra_data_cnt = 1 instead of 0 and the FSM moves from WRITE to WRITE_EXTRA
instead of returning to IDLE — refuting the claim's "equals 0 when all
such extra words are zero ... regardless of what entries were transmitted
earlier". -/
theorem c1_extra_data_cnt_counterexample :
    (txRun txInit c1CounterInputs).srExtraDataCnt = 1 ∧
    TxPacket.write 200 3 0 1 1 ∈ (txRun txInit c1CounterInputs).packets ∧
    (txRun txInit c1CounterInputs).fsm = .WRITE_EXTRA := by decide

theorem cdr_step_idle (s : CdrState) (i : CdrInput)
    (hv : i.srvAck = true → s.srvStb = true) (h : cdrIdle s) :
    cdrInv (cdrStep s i) := by
  obtain ⟨h1, h2, h3, h4, h5, h6, h7, h8, h9⟩ := h
  have hsa : i.srvAck = false := by
    cases hx : i.srvAck
    · rfl
    · exact absurd (hv hx) (by simp [h3])
  cases hr : i.reqStb
  · refine Or.inl ?_
    simp [cdrStep, cdrIdle, cdrReqI, cdrO1, cdrO2,
      h1, h2, h3, h4, h5, h6, h7, h8, h9, hsa, hr]
  · refine Or.inr (Or.inl ?_)
    simp [cdrStep, cdrReqToggled, cdrReqI, cdrO1, cdrO2,
      h1, h2, h3, h4, h5, h6, h7, h8, h9, hsa, hr]

theorem cdr_step_reqToggled (s : CdrState) (i : CdrInput)
    (hv : i.srvAck = true → s.srvStb = true) (h : cdrReqToggled s) :
    cdrInv (cdrStep s i) := by
  obtain ⟨h1, h2, h3, h4, h5, h6, h7, h8, h9⟩ := h
  have hb : s.t1 = !s.s1 := by cases ht : s.t1 <;> cases hs1 : s.s1 <;> simp_all
  have hsa : i.srvAck = false := by
    cases hx : i.srvAck
    · rfl
    · exact absurd (hv hx) (by simp [h3])
  cases hp : i.samp1
  · refine Or.inr (Or.inl ?_)
    simp [cdrStep, cdrReqToggled, cdrReqI, cdrO1, cdrO2,
      h1, h2, h3, hb, h5, h6, h7, h8, h9, hsa, hp]
  · refine Or.inr (Or.inr (Or.inl ?_))
    simp [cdrStep, cdrReqSampled, cdrReqI, cdrO1, cdrO2,
      h1, h2, h3, hb, h5, h6, h7, h8, h9, hsa, hp]

theorem cdr_step_reqSampled (s : CdrState) (i : CdrInput)
    (hv : i.srvAck = true → s.srvStb = true) (h : cdrReqSampled s) :
    cdrInv (cdrStep s i) := by
  obtain ⟨h1, h2, h3, h4, h5, h6, h7, h8, h9⟩ := h
  have hb : s.s1 = !s.s1r := by cases hx : s.s1 <;> cases hy : s.s1r <;> simp_all
  have hsa : i.srvAck = false := by
    cases hx : i.srvAck
    · rfl
    · exact absurd (hv hx) (by simp [h3])
  refine Or.inr (Or.inr (Or.inr (Or.inl ?_)))
  simp [cdrStep, cdrServing, cdrReqI, cdrO1, cdrO2,
    h1, h2, h3, h4, hb, h6, h7, h8, h9, hsa]

theorem cdr_step_serving (s : CdrState) (i : CdrInput) (h : cdrServing s) :
    cdrInv (cdrStep s i) := by
  obtain ⟨h1, h2, h3, h4, h5, h6, h7, h8, h9⟩ := h
  cases hx : i.srvAck
  · refine Or.inr (Or.inr (Or.inr (Or.inl ?_)))
    simp [cdrStep, cdrServing, cdrReqI, cdrO1, cdrO2,
      h1, h2, h3, h4, h5, h6, h7, h8, h9, hx]
  · refine Or.inr (Or.inr (Or.inr (Or.inr (Or.inl ?_))))
    simp [cdrStep, cdrRepToggled, cdrReqI, cdrO1, cdrO2,
      h1, h2, h3, h4, h5, h6, h7, h8, h9, hx]

theorem cdr_step_repToggled (s : CdrState) (i : CdrInput)
    (hv : i.srvAck = true → s.srvStb = true) (h : cdrRepToggled s) :
    cdrInv (cdrStep s i) := by
  obtain ⟨h1, h2, h3, h4, h5, h6, h7, h8, h9⟩ := h
  have hb : s.t2 = !s.s2 := by cases ht : s.t2 <;> cases hs2 : s.s2 <;> simp_all
  have hsa : i.srvAck = false := by
    cases hx : i.srvAck
    · rfl
    · exact absurd (hv hx) (by simp [h3])
  cases hp : i.samp2
  · refine Or.inr (Or.inr (Or.inr (Or.inr (Or.inl ?_))))
    simp [cdrStep, cdrRepToggled, cdrReqI, cdrO1, cdrO2,
      h1, h2, h3, h4, h5, hb, h7, h8, h9, hsa, hp]
  · refine Or.inr (Or.inr (Or.inr (Or.inr (Or.inr (Or.inl ?_)))))
    simp [cdrStep, cdrRepSampled, cdrReqI, cdrO1, cdrO2,
      h1, h2, h3, h4, h5, hb, h7, h8, h9, hsa, hp]

theorem cdr_step_repSampled (s : CdrState) (i : CdrInput)
    (hv : i.srvAck = true → s.srvStb = true) (h : cdrRepSampled s) :
    cdrInv (cdrStep s i) := by
  obtain ⟨h1, h2, h3, h4, h5, h6, h7, h8, h9⟩ := h
  have hb : s.s2 = !s.s2r := by cases hx : s.s2 <;> cases hy : s.s2r <;> simp_all
  have hsa : i.srvAck = false := by
    cases hx : i.srvAck
    · rfl
    · exact absurd (hv hx) (by simp [h3])
  refine Or.inr (Or.inr (Or.inr (Or.inr (Or.inr (Or.inr ?_)))))
  simp [cdrStep, cdrAcking, cdrReqI, cdrO1, cdrO2,
    h1, h2, h3, h4, h5, h6, hb, h8, h9, hsa]

theorem cdr_step_acking (s : CdrState) (i : CdrInput)
    (hv : i.srvAck = true → s.srvStb = true) (h : cdrAcking s) :
    cdrInv (cdrStep s i) := by
  obtain ⟨h1, h2, h3, h4, h5, h6, h7, h8, h9⟩ := h
  have hsa : i.srvAck = false := by
    cases hx : i.srvAck
    · rfl
    · exact absurd (hv hx) (by simp [h3])
  refine Or.inl ?_
  simp [cdrStep, cdrIdle, cdrReqI, cdrO1, cdrO2,
    h1, h2, h3, h4, h5, h6, h7, h8, h9, hsa]

theorem cdr_inv_step (s : CdrState) (i : CdrInput)
    (hv : i.srvAck = true → s.srvStb = true) (h : cdrInv s) :
    cdrInv (cdrStep s i) := by
  rcases h with h | h | h | h | h | h | h
  · exact cdr_step_idle s i hv h
  · exact cdr_step_reqToggled s i hv h
  · exact cdr_step_reqSampled s i hv h
  · exact cdr_step_serving s i h
  · exact cdr_step_repToggled s i hv h
  · exact cdr_step_repSampled s i hv h
  · exact cdr_step_acking s i hv h

theorem cdr_inv_run (s : CdrState) (l : List CdrInput) (h : cdrInv s)
    (hv : cdrValid s l = true) : cdrInv (cdrRun s l) := by
  induction l generalizing s with
  | nil => exact h
  | cons i l ih =>
      rw [cdrValid, Bool.and_eq_true] at hv
      have hva : i.srvAck = true → s.srvStb = true := by
        intro hx
        rcases Bool.or_eq_true_iff.mp hv.1 with hy | hy
        · rw [hx] at hy; cases hy
        · exact hy
      exact ih (cdrStep s i) (cdr_inv_step s i hva h) hv.2

theorem cdr_inv_counts (s : CdrState) (h : cdrInv s) :
    s.nAck ≤ s.nSrv ∧ s.nSrv ≤ s.nReq ∧ s.nReq ≤ s.nAck + 1 ∧
      (s.ongoing = false → s.nReq = s.nSrv ∧ s.nSrv = s.nAck) := by
  rcases h with h | h | h | h | h | h | h <;>
    obtain ⟨h1, h2, h3, h4, h5, h6, h7, h8, h9⟩ := h <;>
    refine ⟨by omega, by omega, by omega, fun hf => ?_⟩ <;>
    first
      | exact ⟨h8, h9⟩
      | (rw [h1] at hf; cases hf)

/-- C4: in the single-request handshake, from reset and under the
destination contract that `srv_ack` is only raised while `srv_stb` is
pending, the handshake phase invariant holds along every run: at most one
request is in flight (the pulse counts satisfy
ack ≤ delivered ≤ issued ≤ ack + 1, and they are all equal whenever no
request is outstanding, so each assertion yields exactly one destination
pulse and exactly one acknowledgement per completed round trip), and while
a transfer is outstanding a held or re-asserted `req_stb` produces no new
request pulse (`request.i = ~ongoing & req_stb`). -/
theorem c4_single_request (l : List CdrInput) (hv : cdrValid cdrInit l = true) :
    cdrInv (cdrRun cdrInit l) ∧
    (cdrRun cdrInit l).nAck ≤ (cdrRun cdrInit l).nSrv ∧
    (cdrRun cdrInit l).nSrv ≤ (cdrRun cdrInit l).nReq ∧
    (cdrRun cdrInit l).nReq ≤ (cdrRun cdrInit l).nAck + 1 ∧
    ((cdrRun cdrInit l).ongoing = false →
      (cdrRun cdrInit l).nReq = (cdrRun cdrInit l).nSrv ∧
        (cdrRun cdrInit l).nSrv = (cdrRun cdrInit l).nAck) ∧
    (∀ (c : CdrState) (b : Bool), c.ongoing = true → cdrReqI c b = false) := by
  have hinv : cdrInv (cdrRun cdrInit l) :=
    cdr_inv_run cdrInit l (Or.inl (by simp [cdrIdle, cdrInit])) hv
  have hc := cdr_inv_counts _ hinv
  refine ⟨hinv, hc.1, hc.2.1, hc.2.2.1, hc.2.2.2, ?_⟩
  intro c b hc1
  simp [cdrReqI, hc1]

/-- A complete concrete handshake: request issued, sampled, delivered,
served, reply sampled, delivered, acknowledged. -/
def c4ExampleInputs : List CdrInput :=
  [ ⟨true, false, false, false⟩, ⟨true, false, true, false⟩,
    ⟨true, false, false, false⟩, ⟨false, true, false, false⟩,
    ⟨false, false, false, true⟩, ⟨false, false, false, false⟩,
    ⟨false, false, false, false⟩ ]

theorem c4_single_request_witness :
    cdrValid cdrInit c4ExampleInputs = true ∧
    cdrInv (cdrRun cdrInit c4ExampleInputs) ∧
    (cdrRun cdrInit c4ExampleInputs).nReq = 1 ∧
    (cdrRun cdrInit c4ExampleInputs).nSrv = 1 ∧
    (cdrRun cdrInit c4ExampleInputs).nAck = 1 := by
  refine ⟨by decide, (c4_single_request c4ExampleInputs (by decide)).1,
    by decide, by decide, by decide⟩

/-- Contents of the one-entry read buffer as a list (empty when
`sr_buf_readable` is clear). -/
def txBuffered (s : TxMachine) : List SrEntry :=
  if s.bufReadable then [txBufEntry s] else []

/-- Ordering invariant of the transmit subsystem: the accepted pushes are
exactly the serviced entries followed by the in-flight ones (read buffer
then FIFO), the FSM is in an entry-serving state only with a valid buffer,
and the queue-entry packet trace is tagged with monotonically non-decreasing
entry indices, every index below the serviced count being represented. -/
def txInv (s : TxMachine) : Prop :=
  s.pushed = s.serviced ++ txBuffered s ++ s.fifo ∧
  ((s.fsm = .WRITE ∨ s.fsm = .WRITE_EXTRA ∨ s.fsm = .FIFO_SPACE) →
    s.bufReadable = true) ∧
  List.Chain' (fun a b => a ≤ b) (s.qtrace.map Prod.fst) ∧
  (∀ q ∈ s.qtrace, q.1 ≤ s.serviced.length) ∧
  (∀ j, j < s.serviced.length → ∃ p, (j, p) ∈ s.qtrace)

theorem txBufRe_fsm (s : TxMachine) (i : TxInput) (h : txBufRe s i = true) :
    s.fsm = .WRITE ∨ s.fsm = .WRITE_EXTRA ∨ s.fsm = .FIFO_SPACE := by
  cases hf : s.fsm <;> simp [txBufRe, hf] at h ⊢

theorem txBufRe_emit (s : TxMachine) (i : TxInput) (h : txBufRe s i = true) :
    ∃ p, txQueueEmit s i = [p] := by
  rcases txBufRe_fsm s i h with hf | hf | hf <;> simp [txBufRe, hf] at h
  · exact ⟨.write s.srTimestamp s.srChannel s.srAddress s.srExtraDataCnt
      (s.srData % 2 ^ shortDataLen), by simp [txQueueEmit, txEmit, hf, h.1]⟩
  · exact ⟨.writeExtraWord (extraWord s.srExtraData (s.extraDataCounter - 1)),
      by simp [txQueueEmit, txEmit, hf]⟩
  · exact ⟨.fifoSpaceRequest s.srChannel, by simp [txQueueEmit, txEmit, hf, h]⟩

theorem txQueueEmit_cases (s : TxMachine) (i : TxInput) :
    txQueueEmit s i = [] ∨ ∃ p, txQueueEmit s i = [p] := by
  cases hf : s.fsm <;> simp [txQueueEmit, txEmit, hf] <;> split <;> simp_all

theorem txInv_step (s : TxMachine) (i : TxInput) (h : txInv s) :
    txInv (txStep s i) := by
  obtain ⟨hA, hB, hC, hD, hE⟩ := h
  have hA' : (txStep s i).pushed
      = (txStep s i).serviced ++ txBuffered (txStep s i) ++ (txStep s i).fifo := by
    by_cases hre : txRe s i = true
    · obtain ⟨e, r, hfifo⟩ : ∃ e r, s.fifo = e :: r := by
        cases hf : s.fifo with
        | nil => rw [txRe, hf] at hre; simp at hre
        | cons e r => exact ⟨e, r, rfl⟩
      by_cases hbr : txBufRe s i = true
      · have hbuf : s.bufReadable = true := hB (txBufRe_fsm s i hbr)
        simp [txStep, hre, hbr, hfifo, txBuffered, txBufEntry, hbuf, hA]
      · have hbr' : txBufRe s i = false := by simpa using hbr
        have hbuf : s.bufReadable = false := by
          rw [txRe] at hre
          simp [hbr'] at hre
          exact hre.2
        simp [txStep, hre, hbr, hfifo, txBuffered, txBufEntry, hbuf, hA]
    · have hre' : txRe s i = false := by simpa using hre
      by_cases hbr : txBufRe s i = true
      · have hbuf : s.bufReadable = true := hB (txBufRe_fsm s i hbr)
        have hfifo : s.fifo = [] := by
          rw [txRe, hbr] at hre'
          simp at hre'
          exact hre'
        simp [txStep, hre', hbr, hfifo, txBuffered, txBufEntry, hbuf, hA]
      · simp [txStep, hre', hbr, txBuffered, txBufEntry, hA]
  have hB' : ((txStep s i).fsm = .WRITE ∨ (txStep s i).fsm = .WRITE_EXTRA ∨
      (txStep s i).fsm = .FIFO_SPACE) → (txStep s i).bufReadable = true := by
    intro hf
    by_cases hre : txRe s i = true
    · simp [txStep, hre]
    · have hre' : txRe s i = false := by simpa using hre
      have hfn : (txStep s i).fsm = txFsmNext s i := by simp [txStep]
      rw [hfn] at hf
      by_cases hbr : txBufRe s i = true
      · exfalso
        have hidle : txFsmNext s i = .IDLE := by
          rcases txBufRe_fsm s i hbr with hf2 | hf2 | hf2 <;>
            simp [txBufRe, hf2] at hbr <;>
            simp [txFsmNext, hf2, hbr]
        rw [hidle] at hf
        simp at hf
      · have hbuf : (txStep s i).bufReadable = s.bufReadable := by
          simp [txStep, hre', hbr]
        rw [hbuf]
        cases hsf : s.fsm with
        | IDLE =>
          by_cases hb2 : s.bufReadable = true
          · exact hb2
          · exfalso
            have hb3 : s.bufReadable = false := by simpa using hb2
            cases he : s.echoStb <;> cases hst : s.setTimeStb <;>
              cases hrs : s.resetStb <;>
              simp [txFsmNext, hsf, hb3, he, hst, hrs] at hf
        | WRITE => exact hB (Or.inl hsf)
        | WRITE_EXTRA => exact hB (Or.inr (Or.inl hsf))
        | FIFO_SPACE => exact hB (Or.inr (Or.inr hsf))
        | ECHO =>
          exfalso
          cases hpl : i.packetLast <;> simp [txFsmNext, hsf, hpl] at hf
        | SET_TIME =>
          exfalso
          cases hpl : i.packetLast <;> simp [txFsmNext, hsf, hpl] at hf
        | RESET =>
          exfalso
          cases hpl : i.packetLast <;> simp [txFsmNext, hsf, hpl] at hf
  have hlen : s.serviced.length ≤ (txStep s i).serviced.length := by
    simp only [txStep]
    split <;> simp
  have hqt : (txStep s i).qtrace
      = s.qtrace ++ (txQueueEmit s i).map (fun p => (s.serviced.length, p)) := by
    simp [txStep]
  have hC' : List.Chain' (fun a b => a ≤ b) ((txStep s i).qtrace.map Prod.fst) := by
    rcases txQueueEmit_cases s i with hq | ⟨p, hq⟩
    · rw [hqt, hq]
      simpa using hC
    · rw [hqt, hq]
      simp only [List.map_cons, List.map_nil, List.map_append]
      rw [List.chain'_append]
      refine ⟨hC, by simp, ?_⟩
      intro x hx y hy
      simp at hy
      have hxmem : x ∈ s.qtrace.map Prod.fst := by
        obtain ⟨hne, hxl⟩ := List.mem_getLast?_eq_getLast hx
        rw [hxl]
        exact List.getLast_mem hne
      obtain ⟨q, hqmem, hqx⟩ := List.mem_map.mp hxmem
      rw [← hy, ← hqx]
      exact hD q hqmem
  have hD' : ∀ q ∈ (txStep s i).qtrace, q.1 ≤ (txStep s i).serviced.length := by
    intro q hq
    rw [hqt] at hq
    rcases List.mem_append.mp hq with hq3 | hq3
    · exact le_trans (hD q hq3) hlen
    · obtain ⟨p, hp, hpe⟩ := List.mem_map.mp hq3
      rw [← hpe]
      exact hlen
  have hE' : ∀ j, j < (txStep s i).serviced.length →
      ∃ p, (j, p) ∈ (txStep s i).qtrace := by
    intro j hj
    by_cases hbr : txBufRe s i = true
    · have hserv : (txStep s i).serviced = s.serviced ++ [txBufEntry s] := by
        simp [txStep, hbr]
      rw [hserv] at hj
      simp at hj
      rcases Nat.lt_succ_iff_lt_or_eq.mp hj with hj2 | hj2
      · obtain ⟨p, hp⟩ := hE j hj2
        exact ⟨p, by rw [hqt]; exact List.mem_append_left _ hp⟩
      · obtain ⟨p, hp⟩ := txBufRe_emit s i hbr
        subst hj2
        exact ⟨p, by rw [hqt, hp]; simp⟩
    · have hserv : (txStep s i).serviced = s.serviced := by
        simp [txStep, hbr]
      rw [hserv] at hj
      obtain ⟨p, hp⟩ := hE j hj
      exact ⟨p, by rw [hqt]; exact List.mem_append_left _ hp⟩
  exact ⟨hA', hB', hC', hD', hE'⟩

theorem txInv_init : txInv txInit := by
  refine ⟨by simp [txInit, txBuffered], by simp [txInit], by simp [txInit],
    by simp [txInit], by simp [txInit]⟩

theorem txInv_run (s : TxMachine) (l : List TxInput) (h : txInv s) :
    txInv (txRun s l) := by
  induction l generalizing s with
  | nil => exact h
  | cons i l ih => exact ih (txStep s i) (txInv_step s i h)

/-- C2: along every input schedule (accepted pushes, arbitrary link
timing), the accepted entries equal the serviced entries followed by the
in-flight ones in order — so entries are serviced strictly FIFO, with no
reordering, dropping or coalescing — and the queue-entry packets on the
link carry monotonically non-decreasing entry indices with every serviced
index represented: every packet of the (K+1)-th queued entry (for example
a FIFOSpaceQuery pushed after K writes) appears strictly after all packets
of the first K entries. -/
theorem c2_strict_fifo_order (l : List TxInput) :
    (txRun txInit l).pushed = (txRun txInit l).serviced
        ++ txBuffered (txRun txInit l) ++ (txRun txInit l).fifo ∧
    List.Chain' (fun a b => a ≤ b) ((txRun txInit l).qtrace.map Prod.fst) ∧
    (∀ q ∈ (txRun txInit l).qtrace, q.1 ≤ (txRun txInit l).serviced.length) ∧
    (∀ j, j < (txRun txInit l).serviced.length →
        ∃ p, (j, p) ∈ (txRun txInit l).qtrace) := by
  have h := txInv_run txInit l txInv_init
  exact ⟨h.1, h.2.2.1, h.2.2.2.1, h.2.2.2.2⟩

/-- A concrete schedule: a write on channel 5 is pushed, then a
FIFO-space query on the same channel, and both are transmitted. -/
def c2ExampleInputs : List TxInput :=
  [ txPushInput ⟨false, 10, 5, 0, 2⟩,
    txPushInput ⟨true, 0, 5, 0, 0⟩,
    txNoInput,
    { txNoInput with packetLast := true },
    txNoInput,
    { txNoInput with packetLast := true } ]

theorem c2_strict_fifo_order_witness :
    (1, TxPacket.fifoSpaceRequest 5) ∈ (txRun txInit c2ExampleInputs).qtrace ∧
    (1 : Nat) ≤ (txRun txInit c2ExampleInputs).serviced.length := by
  refine ⟨by decide, ?_⟩
  exact (c2_strict_fifo_order c2ExampleInputs).2.2.1
    (1, TxPacket.fifoSpaceRequest 5) (by decide)

/-- The three link-context control requests serviced by the transmit FSM. -/
inductive CtrlKind
  | echo | setTime | reset
  deriving DecidableEq

/-- The FSM state that services a control request of kind `k`. -/
def ctrlTxState : CtrlKind → TxState
  | .echo => .ECHO
  | .setTime => .SET_TIME
  | .reset => .RESET

/-- The destination-side `srv_stb` register of kind `k`. -/
def ctrlStb : CtrlKind → TxMachine → Bool
  | .echo, s => s.echoStb
  | .setTime, s => s.setTimeStb
  | .reset, s => s.resetStb

/-- The acknowledge pulse count of kind `k`. -/
def ctrlAcks : CtrlKind → TxMachine → Nat
  | .echo, s => s.echoAcks
  | .setTime, s => s.setTimeAcks
  | .reset, s => s.resetAcks

/-- The single-frame packet a control request of kind `k` emits. -/
def ctrlPktValue (k : CtrlKind) (v : Nat) (phy : Bool) : TxPacket :=
  match k with
  | .echo => .echoRequest
  | .setTime => .setTime v
  | .reset => .reset phy

/-- A quiet cycle for the control scenarios: no push, no new control
pulses, `tsc_value` externally held at `v` (its documented contract while
a set-time request is pending). -/
def quietInput (v : Nat) (i : TxInput) : Prop :=
  i.push = none ∧ i.echoPulse = false ∧ i.setTimePulse = false ∧
    i.resetPulse = false ∧ i.tscIn = v

instance (v : Nat) (i : TxInput) : Decidable (quietInput v i) := by
  unfold quietInput; infer_instance

/-- Transmit state right after the destination side of the corresponding
`_CrossDomainRequest` raised exactly the `srv_stb` of kind `k`, the
transmit path being otherwise idle. -/
def ctrlStart (k : CtrlKind) (phy : Bool) : TxMachine :=
  { txInit with
      echoStb := decide (k = .echo)
      setTimeStb := decide (k = .setTime)
      resetStb := decide (k = .reset)
      resetPhy := phy }

/-- Quiescent transmit state: FSM idle, no pending control request, no
queued entry. -/
def txQuiescent (s : TxMachine) : Prop :=
  s.fsm = .IDLE ∧ s.echoStb = false ∧ s.setTimeStb = false ∧
    s.resetStb = false ∧ s.bufReadable = false ∧ s.fifo = []

/-- The FSM is in the control state of kind `k` with only that request
pending, no queued entries, and the latched payload pinned. -/
def ctrlServing (k : CtrlKind) (v : Nat) (phy : Bool) (s : TxMachine) : Prop :=
  s.fsm = ctrlTxState k ∧ ctrlStb k s = true ∧
    (∀ k2, k2 ≠ k → ctrlStb k2 s = false) ∧
    s.bufReadable = false ∧ s.fifo = [] ∧
    (k = .setTime → s.tscValue = v) ∧ s.resetPhy = phy

theorem txQuiescent_step (s : TxMachine) (i : TxInput) (v : Nat)
    (hs : txQuiescent s) (hi : quietInput v i) :
    txQuiescent (txStep s i) ∧ (txStep s i).packets = s.packets ∧
      (∀ k, ctrlAcks k (txStep s i) = ctrlAcks k s) := by
  obtain ⟨h1, h2, h3, h4, h5, h6⟩ := hs
  obtain ⟨hp, he, hst, hr, htv⟩ := hi
  have hre : txRe s i = false := by simp [txRe, h6]
  have hbr : txBufRe s i = false := by simp [txBufRe, h1]
  refine ⟨⟨?_, ?_, ?_, ?_, ?_, ?_⟩, ?_, ?_⟩
  · simp [txStep, txFsmNext, h1, h2, h3, h4, h5]
  · simp [txStep, txEchoAck, h1, h2, he]
  · simp [txStep, txSetTimeAck, h1, h3, hst]
  · simp [txStep, txResetAck, h1, h4, hr]
  · simp [txStep, hre, hbr, h5]
  · simp [txStep, hre, h6, hp]
  · simp [txStep, txEmit, h1]
  · intro k
    cases k <;> simp [txStep, ctrlAcks, txEchoAck, txSetTimeAck, txResetAck, h1]

theorem txQuiescent_run (s : TxMachine) (l : List TxInput) (v : Nat)
    (hs : txQuiescent s) (hl : ∀ i ∈ l, quietInput v i) :
    txQuiescent (txRun s l) ∧ (txRun s l).packets = s.packets ∧
      (∀ k, ctrlAcks k (txRun s l) = ctrlAcks k s) := by
  induction l generalizing s with
  | nil => exact ⟨hs, rfl, fun k => rfl⟩
  | cons i l ih =>
      have hstep := txQuiescent_step s i v hs (hl i (by simp))
      have htail := ih (txStep s i) hstep.1 (fun x hx => hl x (by simp [hx]))
      exact ⟨htail.1, htail.2.1.trans hstep.2.1,
        fun k => (htail.2.2 k).trans (hstep.2.2 k)⟩


theorem ctrlServing_step_hold (k : CtrlKind) (v : Nat) (phy : Bool)
    (s : TxMachine) (i : TxInput) (hs : ctrlServing k v phy s)
    (hi : quietInput v i) (hpl : i.packetLast = false) :
    ctrlServing k v phy (txStep s i) ∧ (txStep s i).packets = s.packets ∧
      (∀ k2, ctrlAcks k2 (txStep s i) = ctrlAcks k2 s) := by
  obtain ⟨h1, h2, h3, h4, h5, h6, h7⟩ := hs
  obtain ⟨hp, he, hst, hr, htv⟩ := hi
  have hre : txRe s i = false := by simp [txRe, h5]
  cases k with
  | echo =>
      have hb1 : s.setTimeStb = false := h3 .setTime (by decide)
      have hb2 : s.resetStb = false := h3 .reset (by decide)
      rw [ctrlTxState] at h1
      rw [ctrlStb] at h2
      have hbr : txBufRe s i = false := by simp [txBufRe, h1]
      refine ⟨⟨?_, ?_, ?_, ?_, ?_, ?_, ?_⟩, ?_, ?_⟩
      · simp [txStep, txFsmNext, ctrlTxState, h1, hpl]
      · simp [txStep, ctrlStb, txEchoAck, h1, h2, he, hpl]
      · intro k2 hk2
        cases k2 with
        | echo => exact absurd rfl hk2
        | setTime => simp [txStep, ctrlStb, txSetTimeAck, h1, hb1, hst]
        | reset => simp [txStep, ctrlStb, txResetAck, h1, hb2, hr]
      · simp [txStep, hre, hbr, h4]
      · simp [txStep, hre, h5, hp]
      · intro hk; cases hk
      · simp [txStep, hr, h7]
      · simp [txStep, txEmit, h1, hpl]
      · intro k2
        cases k2 <;>
          simp [txStep, ctrlAcks, txEchoAck, txSetTimeAck, txResetAck, h1, hpl]
  | setTime =>
      have hb1 : s.echoStb = false := h3 .echo (by decide)
      have hb2 : s.resetStb = false := h3 .reset (by decide)
      rw [ctrlTxState] at h1
      rw [ctrlStb] at h2
      have hbr : txBufRe s i = false := by simp [txBufRe, h1]
      refine ⟨⟨?_, ?_, ?_, ?_, ?_, ?_, ?_⟩, ?_, ?_⟩
      · simp [txStep, txFsmNext, ctrlTxState, h1, hpl]
      · simp [txStep, ctrlStb, txSetTimeAck, h1, h2, hst, hpl]
      · intro k2 hk2
        cases k2 with
        | setTime => exact absurd rfl hk2
        | echo => simp [txStep, ctrlStb, txEchoAck, h1, hb1, he]
        | reset => simp [txStep, ctrlStb, txResetAck, h1, hb2, hr]
      · simp [txStep, hre, hbr, h4]
      · simp [txStep, hre, h5, hp]
      · intro hk
        have h6' := h6 rfl
        simp [txStep, txTscLoad, h1, h6']
      · simp [txStep, hr, h7]
      · simp [txStep, txEmit, h1, hpl]
      · intro k2
        cases k2 <;>
          simp [txStep, ctrlAcks, txEchoAck, txSetTimeAck, txResetAck, h1, hpl]
  | reset =>
      have hb1 : s.echoStb = false := h3 .echo (by decide)
      have hb2 : s.setTimeStb = false := h3 .setTime (by decide)
      rw [ctrlTxState] at h1
      rw [ctrlStb] at h2
      have hbr : txBufRe s i = false := by simp [txBufRe, h1]
      refine ⟨⟨?_, ?_, ?_, ?_, ?_, ?_, ?_⟩, ?_, ?_⟩
      · simp [txStep, txFsmNext, ctrlTxState, h1, hpl]
      · simp [txStep, ctrlStb, txResetAck, h1, h2, hr, hpl]
      · intro k2 hk2
        cases k2 with
        | reset => exact absurd rfl hk2
        | echo => simp [txStep, ctrlStb, txEchoAck, h1, hb1, he]
        | setTime => simp [txStep, ctrlStb, txSetTimeAck, h1, hb2, hst]
      · simp [txStep, hre, hbr, h4]
      · simp [txStep, hre, h5, hp]
      · intro hk; cases hk
      · simp [txStep, hr, h7]
      · simp [txStep, txEmit, h1, hpl]
      · intro k2
        cases k2 <;>
          simp [txStep, ctrlAcks, txEchoAck, txSetTimeAck, txResetAck, h1, hpl]


theorem ctrlServing_step_last (k : CtrlKind) (v : Nat) (phy : Bool)
    (s : TxMachine) (i : TxInput) (hs : ctrlServing k v phy s)
    (hi : quietInput v i) (hpl : i.packetLast = true) :
    txQuiescent (txStep s i) ∧
      (txStep s i).packets = s.packets ++ [ctrlPktValue k v phy] ∧
      ctrlAcks k (txStep s i) = ctrlAcks k s + 1 ∧
      (∀ k2, k2 ≠ k → ctrlAcks k2 (txStep s i) = ctrlAcks k2 s) := by
  obtain ⟨h1, h2, h3, h4, h5, h6, h7⟩ := hs
  obtain ⟨hp, he, hst, hr, htv⟩ := hi
  have hre : txRe s i = false := by simp [txRe, h5]
  cases k with
  | echo =>
      have hb1 : s.setTimeStb = false := h3 .setTime (by decide)
      have hb2 : s.resetStb = false := h3 .reset (by decide)
      rw [ctrlTxState] at h1
      have hbr : txBufRe s i = false := by simp [txBufRe, h1]
      refine ⟨⟨?_, ?_, ?_, ?_, ?_, ?_⟩, ?_, ?_, ?_⟩
      · simp [txStep, txFsmNext, h1, hpl]
      · simp [txStep, txEchoAck, h1, hpl]
      · simp [txStep, txSetTimeAck, h1, hb1, hst]
      · simp [txStep, txResetAck, h1, hb2, hr]
      · simp [txStep, hre, hbr, h4]
      · simp [txStep, hre, h5, hp]
      · simp [txStep, txEmit, ctrlPktValue, h1, hpl]
      · simp [txStep, ctrlAcks, txEchoAck, h1, hpl]
      · intro k2 hk2
        cases k2 with
        | echo => exact absurd rfl hk2
        | setTime => simp [txStep, ctrlAcks, txSetTimeAck, h1]
        | reset => simp [txStep, ctrlAcks, txResetAck, h1]
  | setTime =>
      have hb1 : s.echoStb = false := h3 .echo (by decide)
      have hb2 : s.resetStb = false := h3 .reset (by decide)
      have h6' := h6 rfl
      rw [ctrlTxState] at h1
      have hbr : txBufRe s i = false := by simp [txBufRe, h1]
      refine ⟨⟨?_, ?_, ?_, ?_, ?_, ?_⟩, ?_, ?_, ?_⟩
      · simp [txStep, txFsmNext, h1, hpl]
      · simp [txStep, txEchoAck, h1, hb1, he]
      · simp [txStep, txSetTimeAck, h1, hpl]
      · simp [txStep, txResetAck, h1, hb2, hr]
      · simp [txStep, hre, hbr, h4]
      · simp [txStep, hre, h5, hp]
      · simp [txStep, txEmit, ctrlPktValue, h1, hpl, h6']
      · simp [txStep, ctrlAcks, txSetTimeAck, h1, hpl]
      · intro k2 hk2
        cases k2 with
        | setTime => exact absurd rfl hk2
        | echo => simp [txStep, ctrlAcks, txEchoAck, h1]
        | reset => simp [txStep, ctrlAcks, txResetAck, h1]
  | reset =>
      have hb1 : s.echoStb = false := h3 .echo (by decide)
      have hb2 : s.setTimeStb = false := h3 .setTime (by decide)
      rw [ctrlTxState] at h1
      have hbr : txBufRe s i = false := by simp [txBufRe, h1]
      refine ⟨⟨?_, ?_, ?_, ?_, ?_, ?_⟩, ?_, ?_, ?_⟩
      · simp [txStep, txFsmNext, h1, hpl]
      · simp [txStep, txEchoAck, h1, hb1, he]
      · simp [txStep, txSetTimeAck, h1, hb2, hst]
      · simp [txStep, txResetAck, h1, hpl]
      · simp [txStep, hre, hbr, h4]
      · simp [txStep, hre, h5, hp]
      · simp [txStep, txEmit, ctrlPktValue, h1, hpl, h7]
      · simp [txStep, ctrlAcks, txResetAck, h1, hpl]
      · intro k2 hk2
        cases k2 with
        | reset => exact absurd rfl hk2
        | echo => simp [txStep, ctrlAcks, txEchoAck, h1]
        | setTime => simp [txStep, ctrlAcks, txSetTimeAck, h1]

theorem ctrlStart_step (k : CtrlKind) (phy : Bool) (v : Nat) (i : TxInput)
    (hi : quietInput v i) :
    ctrlServing k v phy (txStep (ctrlStart k phy) i) ∧
      (txStep (ctrlStart k phy) i).packets = [] ∧
      (∀ k2, ctrlAcks k2 (txStep (ctrlStart k phy) i) = 0) := by
  obtain ⟨hp, he, hst, hr, htv⟩ := hi
  cases k with
  | echo =>
      refine ⟨⟨?_, ?_, ?_, ?_, ?_, ?_, ?_⟩, ?_, ?_⟩
      · simp [txStep, txFsmNext, ctrlStart, ctrlTxState, txInit]
      · simp [txStep, ctrlStb, ctrlStart, txInit, txEchoAck, he]
      · intro k2 hk2
        cases k2 with
        | echo => exact absurd rfl hk2
        | setTime => simp [txStep, ctrlStb, ctrlStart, txInit, txSetTimeAck, hst]
        | reset => simp [txStep, ctrlStb, ctrlStart, txInit, txResetAck, hr]
      · simp [txStep, txRe, txBufRe, ctrlStart, txInit]
      · simp [txStep, txRe, ctrlStart, txInit, hp]
      · intro hk; cases hk
      · simp [txStep, ctrlStart, txInit, hr]
      · simp [txStep, txEmit, ctrlStart, txInit]
      · intro k2
        cases k2 <;>
          simp [txStep, ctrlAcks, ctrlStart, txInit, txEchoAck, txSetTimeAck, txResetAck]
  | setTime =>
      refine ⟨⟨?_, ?_, ?_, ?_, ?_, ?_, ?_⟩, ?_, ?_⟩
      · simp [txStep, txFsmNext, ctrlStart, ctrlTxState, txInit]
      · simp [txStep, ctrlStb, ctrlStart, txInit, txSetTimeAck, hst]
      · intro k2 hk2
        cases k2 with
        | setTime => exact absurd rfl hk2
        | echo => simp [txStep, ctrlStb, ctrlStart, txInit, txEchoAck, he]
        | reset => simp [txStep, ctrlStb, ctrlStart, txInit, txResetAck, hr]
      · simp [txStep, txRe, txBufRe, ctrlStart, txInit]
      · simp [txStep, txRe, ctrlStart, txInit, hp]
      · intro hk
        simp [txStep, txTscLoad, ctrlStart, txInit, htv]
      · simp [txStep, ctrlStart, txInit, hr]
      · simp [txStep, txEmit, ctrlStart, txInit]
      · intro k2
        cases k2 <;>
          simp [txStep, ctrlAcks, ctrlStart, txInit, txEchoAck, txSetTimeAck, txResetAck]
  | reset =>
      refine ⟨⟨?_, ?_, ?_, ?_, ?_, ?_, ?_⟩, ?_, ?_⟩
      · simp [txStep, txFsmNext, ctrlStart, ctrlTxState, txInit]
      · simp [txStep, ctrlStb, ctrlStart, txInit, txResetAck, hr]
      · intro k2 hk2
        cases k2 with
        | reset => exact absurd rfl hk2
        | echo => simp [txStep, ctrlStb, ctrlStart, txInit, txEchoAck, he]
        | setTime => simp [txStep, ctrlStb, ctrlStart, txInit, txSetTimeAck, hst]
      · simp [txStep, txRe, txBufRe, ctrlStart, txInit]
      · simp [txStep, txRe, ctrlStart, txInit, hp]
      · intro hk; cases hk
      · simp [txStep, ctrlStart, txInit, hr]
      · simp [txStep, txEmit, ctrlStart, txInit]
      · intro k2
        cases k2 <;>
          simp [txStep, ctrlAcks, ctrlStart, txInit, txEchoAck, txSetTimeAck, txResetAck]


theorem ctrlServing_run (k : CtrlKind) (v : Nat) (phy : Bool)
    (s : TxMachine) (l : List TxInput) (hs : ctrlServing k v phy s)
    (hl : ∀ i ∈ l, quietInput v i) (hpl : ∃ i ∈ l, i.packetLast = true) :
    txQuiescent (txRun s l) ∧
      (txRun s l).packets = s.packets ++ [ctrlPktValue k v phy] ∧
      ctrlAcks k (txRun s l) = ctrlAcks k s + 1 ∧
      (∀ k2, k2 ≠ k → ctrlAcks k2 (txRun s l) = ctrlAcks k2 s) := by
  induction l generalizing s with
  | nil => exact absurd hpl (by simp)
  | cons i l ih =>
      have hqi : quietInput v i := hl i (by simp)
      have hltail : ∀ x ∈ l, quietInput v x := fun x hx => hl x (by simp [hx])
      cases hpl2 : i.packetLast with
      | true =>
          have hstep := ctrlServing_step_last k v phy s i hs hqi hpl2
          have hrun := txQuiescent_run (txStep s i) l v hstep.1 hltail
          refine ⟨hrun.1, hrun.2.1.trans hstep.2.1, ?_, ?_⟩
          · exact (hrun.2.2 k).trans hstep.2.2.1
          · intro k2 hk2
            exact (hrun.2.2 k2).trans (hstep.2.2.2 k2 hk2)
      | false =>
          have hstep := ctrlServing_step_hold k v phy s i hs hqi hpl2
          have hpl3 : ∃ x ∈ l, x.packetLast = true := by
            obtain ⟨j, hj, hjl⟩ := hpl
            rcases List.mem_cons.mp hj with hj2 | hj2
            · rw [hj2] at hjl
              rw [hjl] at hpl2
              cases hpl2
            · exact ⟨j, hj2, hjl⟩
          have htail := ih (txStep s i) hstep.1 hltail hpl3
          refine ⟨htail.1, htail.2.1.trans (by rw [hstep.2.1]), ?_, ?_⟩
          · exact htail.2.2.1.trans (by rw [hstep.2.2 k])
          · intro k2 hk2
            exact (htail.2.2.2 k2 hk2).trans (hstep.2.2 k2)

/-- C8: starting from an idle transmit path with exactly one pending
control request of kind `k` (echo, set-time with externally held value `v`,
or reset with latched `phy`), any quiet run in which the serializer
eventually signals packet completion emits exactly one packet — the
single-frame packet of that control request, carrying `v` for set-time and
`phy` for reset — raises the matching acknowledgement pulse exactly once
(in the packet-completion cycle, before the FSM is back in IDLE), raises no
other acknowledgement, clears the pending request, and returns the FSM to
IDLE; moreover, at the origin side of the handshake a second request
asserted while the first is outstanding produces no new request pulse
(`request.i = ~ongoing & req_stb`), so it cannot issue an additional
packet. -/
theorem c8_control_packets (k : CtrlKind) (v : Nat) (phy : Bool)
    (i0 : TxInput) (l : List TxInput) (h0 : quietInput v i0)
    (hl : ∀ i ∈ l, quietInput v i) (hpl : ∃ i ∈ l, i.packetLast = true) :
    (txRun (ctrlStart k phy) (i0 :: l)).packets = [ctrlPktValue k v phy] ∧
    ctrlAcks k (txRun (ctrlStart k phy) (i0 :: l)) = 1 ∧
    (∀ k2, k2 ≠ k → ctrlAcks k2 (txRun (ctrlStart k phy) (i0 :: l)) = 0) ∧
    (txRun (ctrlStart k phy) (i0 :: l)).fsm = .IDLE ∧
    ctrlStb k (txRun (ctrlStart k phy) (i0 :: l)) = false ∧
    (∀ (c : CdrState) (b : Bool), c.ongoing = true → cdrReqI c b = false) := by
  have hrun : txRun (ctrlStart k phy) (i0 :: l)
      = txRun (txStep (ctrlStart k phy) i0) l := rfl
  have hstart := ctrlStart_step k phy v i0 h0
  have hserv := ctrlServing_run k v phy _ l hstart.1 hl hpl
  rw [hrun]
  refine ⟨?_, ?_, ?_, hserv.1.1, ?_, ?_⟩
  · rw [hserv.2.1, hstart.2.1]
    simp
  · rw [hserv.2.2.1, hstart.2.2 k]
  · intro k2 hk2
    rw [hserv.2.2.2 k2 hk2, hstart.2.2 k2]
  · obtain ⟨hq1, hq2, hq3, hq4, hq5, hq6⟩ := hserv.1
    cases k with
    | echo => exact hq2
    | setTime => exact hq3
    | reset => exact hq4
  · intro c b hc
    simp [cdrReqI, hc]

theorem c8_control_packets_witness :
    quietInput 42 { txNoInput with tscIn := 42 } ∧
    (txRun (ctrlStart .setTime false)
        [{ txNoInput with tscIn := 42 },
         { txNoInput with tscIn := 42, packetLast := true }]).packets
      = [TxPacket.setTime 42] := by
  refine ⟨by decide, ?_⟩
  exact (c8_control_packets .setTime 42 false { txNoInput with tscIn := 42 }
    [{ txNoInput with tscIn := 42, packetLast := true }] (by decide)
    (by decide) (by decide)).1

end RtPacketMaster
